import Mathlib

/-
Shallow embedding of the annotation extraction, normalization and filtering
pipeline of the apple-books-export tool (src/database.ts).

Modelling conventions:
* JavaScript strings are `List Char`; `String.prototype.trim` is `jsTrim`,
  with JS whitespace embedded as `Char.isWhitespace`.
* A JavaScript `Date` is its integer millisecond count since the Unix epoch.
* Nullable fields are `Option`; JS string truthiness (`""` is falsy) is made
  explicit at each use site.
* The SQLite tables are lists of rows; the single SQL query of
  `queryAnnotations` (left join, `WHERE ZANNOTATIONDELETED = 0`,
  `ORDER BY title, createdAt`) is embedded as join, filter and a sort.
* The insertion-ordered JS `Map` of `groupByBook` is an association list.
-/

abbrev JSStr := List Char

def isWS (c : Char) : Bool := c.isWhitespace

/-- Embedding of JavaScript `String.prototype.trim`: drop whitespace from
both ends. -/
def jsTrim (s : JSStr) : JSStr :=
  ((s.dropWhile isWS).reverse.dropWhile isWS).reverse

/-- `src/types.ts`: `AnnotationType`. -/
inductive AnnotationType where
  | highlight
  | bookmark
  | note
deriving DecidableEq, Repr

/-- `src/types.ts`: `AnnotationColor`. -/
inductive AnnotationColor where
  | yellow
  | green
  | blue
  | pink
  | purple
  | underline
deriving DecidableEq, Repr

/-- The string value of an `AnnotationColor` (the TS type is a union of
string literals). -/
def colorStr : AnnotationColor → JSStr
  | .yellow => "yellow".data
  | .green => "green".data
  | .blue => "blue".data
  | .pink => "pink".data
  | .purple => "purple".data
  | .underline => "underline".data

/-- `src/types.ts`: `RawAnnotation`, one row of the join query. -/
structure RawAnnotation where
  id : Int
  assetId : JSStr
  text : Option JSStr
  note : Option JSStr
  style : Int
  location : Option JSStr
  createdAt : Int
  modifiedAt : Int
  deleted : Int
  title : Option JSStr
  author : Option JSStr
  genre : Option JSStr
deriving DecidableEq, Repr

/-- A JS `Date`: milliseconds since the Unix epoch. -/
structure JSDate where
  ms : Int
deriving DecidableEq, Repr

/-- `src/types.ts`: `Annotation`. -/
structure Annotation where
  id : Int
  type : AnnotationType
  color : AnnotationColor
  text : Option JSStr
  note : Option JSStr
  location : Option JSStr
  chapter : Option JSStr
  createdAt : JSDate
  modifiedAt : JSDate
deriving DecidableEq, Repr

/-- `src/types.ts`: `Book`. -/
structure Book where
  assetId : JSStr
  title : Option JSStr
  author : Option JSStr
  genre : Option JSStr
  annotations : List Annotation
deriving DecidableEq, Repr

/-- `src/database.ts`: the `APPLE_EPOCH_OFFSET` constant of
`convertAppleDate`. -/
def APPLE_EPOCH_OFFSET : Int := 978307200

/-- `src/database.ts`: `convertAppleDate`,
`new Date((timestamp + APPLE_EPOCH_OFFSET) * 1000)`. -/
def convertAppleDate (timestamp : Int) : JSDate :=
  ⟨(timestamp + APPLE_EPOCH_OFFSET) * 1000⟩

/-- `src/database.ts`: `mapAnnotationStyle`, the fixed `styleMap` lookup with
`|| { type: 'highlight', color: 'yellow' }` as fallback. -/
def mapAnnotationStyle (style : Int) : AnnotationType × AnnotationColor :=
  if style = 0 then (.highlight, .underline)
  else if style = 1 then (.highlight, .green)
  else if style = 2 then (.highlight, .blue)
  else if style = 3 then (.highlight, .yellow)
  else if style = 4 then (.highlight, .pink)
  else if style = 5 then (.highlight, .purple)
  else (.highlight, .yellow)

/-- JS condition `raw.note && raw.note.trim().length > 0` (a null or empty
string is falsy). -/
def hasContent : Option JSStr → Bool
  | some s => !s.isEmpty && !(jsTrim s).isEmpty
  | none => false

/-- JS condition `!raw.text || raw.text.trim().length === 0`. -/
def isBlankText : Option JSStr → Bool
  | some s => s.isEmpty || (jsTrim s).isEmpty
  | none => true

/-- `src/database.ts`: `determineAnnotationType`. -/
def determineAnnotationType (raw : RawAnnotation) : AnnotationType :=
  if hasContent raw.note then .note
  else if isBlankText raw.text then .bookmark
  else .highlight

/-- The `Annotation` object literal built (identically) inside
`transformAnnotations` and `groupByBook`. -/
def rawToAnnotation (raw : RawAnnotation) : Annotation :=
  { id := raw.id
    type := determineAnnotationType raw
    color := (mapAnnotationStyle raw.style).2
    text := raw.text
    note := raw.note
    location := raw.location
    chapter := none
    createdAt := convertAppleDate raw.createdAt
    modifiedAt := convertAppleDate raw.modifiedAt }

/-- `src/database.ts`: `transformAnnotations`. -/
def transformAnnotations (rawAnnotations : List RawAnnotation) : List Annotation :=
  rawAnnotations.map rawToAnnotation

/-- The `Book` object literal `bookMap.set(assetId, {...})` creates in
`groupByBook`. -/
def newBook (raw : RawAnnotation) : Book :=
  { assetId := raw.assetId
    title := raw.title
    author := raw.author
    genre := raw.genre
    annotations := [] }

/-- `book.annotations.push(...)` on the unique map entry whose key is
`raw.assetId`: update the first (in an insertion-ordered map, the only)
book with that asset id. -/
def pushAnn (raw : RawAnnotation) : List Book → List Book
  | [] => []
  | b :: bs =>
    if b.assetId == raw.assetId then
      { b with annotations := b.annotations ++ [ rawToAnnotation raw] } :: bs
    else
      b :: pushAnn raw bs

/-- `bookMap.has(assetId)`. -/
def hasKey (bs : List Book) (k : JSStr) : Bool :=
  bs.any (fun b => b.assetId == k)

/-- The body of the `for (const raw of rawAnnotations)` loop of
`groupByBook`. -/
def groupStep (acc : List Book) (raw : RawAnnotation) : List Book :=
  pushAnn raw (if hasKey acc raw.assetId then acc else acc ++ [newBook raw])

/-- `src/database.ts`: `groupByBook` (`Array.from(bookMap.values())` returns
books in key insertion order). -/
def groupByBook (rawAnnotations : List RawAnnotation) : List Book :=
  rawAnnotations.foldl groupStep []

/-- The filter configuration of `filterAnnotations` (`options` parameter). -/
structure FilterOptions where
  includeHighlights : Bool
  includeBookmarks : Bool
  includeNotes : Bool
  colorFilters : Option (List JSStr)
deriving DecidableEq, Repr

/-- The predicate of the `annotations.filter(ann => ...)` callback in
`filterAnnotations`. -/
def keepAnnotation (o : FilterOptions) (ann : Annotation) : Bool :=
  if ann.type == .highlight && !o.includeHighlights then false
  else if ann.type == .bookmark && !o.includeBookmarks then false
  else if ann.type == .note && !o.includeNotes then false
  else
    match o.colorFilters with
    | some cs => if cs.length > 0 then cs.contains (colorStr ann.color) else true
    | none => true

/-- `src/database.ts`: `filterAnnotations`. -/
def filterAnnotations (annotations : List Annotation) (o : FilterOptions) :
    List Annotation :=
  annotations.filter ( keepAnnotation o)

/-- The filesystem as `findDatabases` observes it: the home directory path
and, for each existing directory, its listing (`existsSync` is key
membership, `readdirSync` is lookup). -/
structure FileSystem where
  home : JSStr
  dirs : List (JSStr × List JSStr)
deriving DecidableEq, Repr

/-- `fs.existsSync`. -/
def existsSync (fs : FileSystem) (p : JSStr) : Bool :=
  fs.dirs.any (fun d => d.1 == p)

/-- `fs.readdirSync`, in directory listing order. -/
def readdirSync (fs : FileSystem) (p : JSStr) : List JSStr :=
  match fs.dirs.find? (fun d => d.1 == p) with
  | some d => d.2
  | none => []

/-- `path.join` of a directory and an entry name (embedded as separator
concatenation; the arguments in use carry no trailing separators). -/
def pathJoin (dir entry : JSStr) : JSStr :=
  dir ++ '/' :: entry

/-- `APPLE_BOOKS_CONTAINER = join(homedir(), "Library/Containers/com.apple.iBooksX/Data/Documents")`. -/
def appleBooksContainer (fs : FileSystem) : JSStr :=
  pathJoin fs.home "Library/Containers/com.apple.iBooksX/Data/Documents".data

/-- The `customPaths` parameter of `findDatabases`. -/
structure CustomPaths where
  annotations : Option JSStr
  library : Option JSStr
deriving DecidableEq, Repr

/-- JS truthiness of an optional string (`undefined` and `""` are falsy). -/
def truthy : Option JSStr → Bool
  | some s => !s.isEmpty
  | none => false

/-- `join(APPLE_BOOKS_CONTAINER, "AEAnnotation")`. -/
def annotationsDirOf (fs : FileSystem) : JSStr :=
  pathJoin (appleBooksContainer fs) "AEAnnotation".data

/-- `join(APPLE_BOOKS_CONTAINER, "BKLibrary")`. -/
def libraryDirOf (fs : FileSystem) : JSStr :=
  pathJoin (appleBooksContainer fs) "BKLibrary".data

/-- `f.startsWith("AEAnnotation_") && f.endsWith(".sqlite")`. -/
def annFileMatch (f : JSStr) : Bool :=
  List.isPrefixOf "AEAnnotation_".data f && List.isSuffixOf ".sqlite".data f

/-- `f.startsWith("BKLibrary") && f.endsWith(".sqlite")`. -/
def libFileMatch (f : JSStr) : Bool :=
  List.isPrefixOf "BKLibrary".data f && List.isSuffixOf ".sqlite".data f

/-- The `annotationFiles` list computed by `findDatabases`. -/
def annotationFilesOf (fs : FileSystem) : List JSStr :=
  (readdirSync fs (annotationsDirOf fs)).filter annFileMatch

/-- The `libraryFiles` list computed by `findDatabases`. -/
def libraryFilesOf (fs : FileSystem) : List JSStr :=
  (readdirSync fs (libraryDirOf fs)).filter libFileMatch

/-- `src/database.ts`: `findDatabases`. Errors are the thrown `Error`
messages. -/
def findDatabases (fs : FileSystem) (customPaths : Option CustomPaths) :
    Except JSStr (JSStr × JSStr) :=
  let annOpt := customPaths.bind (fun c => c.annotations)
  let libOpt := customPaths.bind (fun c => c.library)
  if truthy annOpt && truthy libOpt then
    .ok (annOpt.getD [], libOpt.getD [])
  else
    let annotationsDir := annotationsDirOf fs
    if !existsSync fs annotationsDir then
      .error ("Annotations directory not found: ".data ++ annotationsDir)
    else
      match annotationFilesOf fs with
      | [] => .error ("No annotation database found in ".data ++ annotationsDir)
      | f :: _ =>
        let annotationsDb := pathJoin annotationsDir f
        let libraryDir := libraryDirOf fs
        if !existsSync fs libraryDir then
          .error ("Library directory not found: ".data ++ libraryDir)
        else
          match libraryFilesOf fs with
          | [] => .error ("No library database found in ".data ++ libraryDir)
          | g :: _ => .ok (annotationsDb, pathJoin libraryDir g)

/-- A row of the `ZAEANNOTATION` table (the columns the query selects). -/
structure AnnotationRow where
  id : Int
  assetId : JSStr
  text : Option JSStr
  note : Option JSStr
  style : Int
  location : Option JSStr
  createdAt : Int
  modifiedAt : Int
  deleted : Int
deriving DecidableEq, Repr

/-- A row of the attached `library.ZBKLIBRARYASSET` table (the columns the
query reads). -/
structure LibraryRow where
  assetId : JSStr
  title : Option JSStr
  author : Option JSStr
  genre : Option JSStr
deriving DecidableEq, Repr

/-- One result row of the join: annotation columns plus the matched book
metadata (all-null when the left join found no match). -/
def joinRow (a : AnnotationRow) (m : Option LibraryRow) : RawAnnotation :=
  { id := a.id
    assetId := a.assetId
    text := a.text
    note := a.note
    style := a.style
    location := a.location
    createdAt := a.createdAt
    modifiedAt := a.modifiedAt
    deleted := a.deleted
    title := m.bind (fun b => b.title)
    author := m.bind (fun b => b.author)
    genre := m.bind (fun b => b.genre) }

/-- `LEFT JOIN library.ZBKLIBRARYASSET ON ... ZANNOTATIONASSETID = ... ZASSETID`. -/
def leftJoin (anns : List AnnotationRow) (lib : List LibraryRow) :
    List RawAnnotation :=
  anns.flatMap (fun a =>
    match lib.filter (fun m => m.assetId == a.assetId) with
    | [] => [joinRow a none]
    | ms => ms.map (fun m => joinRow a (some m)))

/-- Lexicographic strict order on strings (SQLite text comparison). -/
def strLt : JSStr → JSStr → Bool
  | [], [] => false
  | [], _ :: _ => true
  | _ :: _, [] => false
  | a :: as, b :: bs => if a < b then true else if b < a then false else strLt as bs

/-- `ORDER BY title` key order: SQL NULLs sort first ascending. -/
def titleLe : Option JSStr → Option JSStr → Bool
  | none, _ => true
  | some _, none => false
  | some a, some b => strLt a b || a == b

/-- The `ORDER BY title, createdAt` row order. -/
def rowLe (x y : RawAnnotation) : Bool :=
  if x.title == y.title then decide (x.createdAt ≤ y.createdAt)
  else titleLe x.title y.title

def rowLeProp (x y : RawAnnotation) : Prop := rowLe x y = true

instance : DecidableRel rowLeProp :=
  fun x y => instDecidableEqBool (rowLe x y) true

/-- `src/database.ts`: `queryAnnotations` — the single SQL statement: left
join, `WHERE ZAEANNOTATION.ZANNOTATIONDELETED = 0`, `ORDER BY title,
createdAt`. -/
def queryAnnotations (anns : List AnnotationRow) (lib : List LibraryRow) :
    List RawAnnotation :=
  List.insertionSort rowLeProp
    ((leftJoin anns lib).filter (fun r => r.deleted == 0))

/-- Inverse of `convertAppleDate`: whole seconds since the vendor epoch. -/
def dateToAppleSeconds (d : JSDate) : Int :=
  d.ms / 1000 - APPLE_EPOCH_OFFSET

/-- Proleptic Gregorian leap-year rule. -/
def isLeapYear (y : Nat) : Bool :=
  (y % 4 == 0 && y % 100 != 0) || y % 400 == 0

def daysInYear (y : Nat) : Nat :=
  if isLeapYear y then 366 else 365

def monthLengths (y : Nat) : List Nat :=
  [31, if isLeapYear y then 29 else 28, 31, 30, 31, 30, 31, 31, 30, 31, 30, 31]

/-- Days from 1970-01-01 to the first day of year `y` (for `y ≥ 1970`). -/
def daysFromEpochToYear (y : Nat) : Nat :=
  ((List.range (y - 1970)).map (fun i => daysInYear (1970 + i))).sum

/-- Unix seconds of the UTC instant `y-mo-d h:mi:s` (independent check of
what calendar date a converted timestamp denotes). -/
def epochSecondsOfUTC (y mo d h mi s : Nat) : Int :=
  ((daysFromEpochToYear y + ((monthLengths y).take (mo - 1)).sum + (d - 1)) * 86400
    + h * 3600 + mi * 60 + s : Nat)

/-- The kind inclusion flag of a filter configuration for a given
annotation kind. -/
def includeFlag (o : FilterOptions) : AnnotationType → Bool
  | .highlight => o.includeHighlights
  | .bookmark => o.includeBookmarks
  | .note => o.includeNotes

/-- First-seen order of the distinct elements of a list. -/
def firstSeen : List JSStr → List JSStr
  | [] => []
  | k :: ks => k :: firstSeen (ks.filter (fun x => !(x == k)))
termination_by l => l.length
decreasing_by
  simp only [List.length_cons]
  exact Nat.lt_succ_of_le (List.length_filter_le _ _)

/-- Specification of `groupByBook`: one book per first-seen asset id,
metadata from the first row, annotations the normalization of the rows
bearing that asset id, in row order. -/
def groupSpec : List RawAnnotation → List Book
  | [] => []
  | r :: rs =>
    { assetId := r.assetId
      title := r.title
      author := r.author
      genre := r.genre
      annotations :=
        transformAnnotations (r :: rs.filter (fun x => x.assetId == r.assetId)) }
    :: groupSpec (rs.filter (fun x => !(x.assetId == r.assetId)))
termination_by l => l.length
decreasing_by
  simp only [List.length_cons]
  exact Nat.lt_succ_of_le (List.length_filter_le _ _)

/-- A book as it stands after further rows `rows` have been folded in: its
annotation list extended by the normalization of the rows bearing its
asset id. -/
def extendBook (rows : List RawAnnotation) (b : Book) : Book :=
  { b with
    annotations :=
      b.annotations ++ transformAnnotations (rows.filter (fun x => x.assetId == b.assetId)) }

def extendBooks (rows : List RawAnnotation) (bs : List Book) : List Book :=
  bs.map (extendBook rows)

def keysOf (bs : List Book) : List JSStr :=
  bs.map (fun b => b.assetId)

lemma jsTrim_eq_nil_iff (s : JSStr) : jsTrim s = [] ↔ ∀ c ∈ s, isWS c = true := by
  unfold jsTrim
  constructor
  · intro h c hc
    have h1 : (s.dropWhile isWS).reverse.dropWhile isWS = [] := by
      simpa using congrArg List.reverse h
    have h3 : ∀ x ∈ s.dropWhile isWS, isWS x = true := fun x hx =>
      List.dropWhile_eq_nil_iff.mp h1 x (List.mem_reverse.mpr hx)
    have hc' : c ∈ s.takeWhile isWS ++ s.dropWhile isWS := by
      rw [List.takeWhile_append_dropWhile]; exact hc
    rcases List.mem_append.mp hc' with h5 | h5
    · exact List.mem_takeWhile_imp h5
    · exact h3 c h5
  · intro h
    have h1 : s.dropWhile isWS = [] := List.dropWhile_eq_nil_iff.mpr h
    simp [h1]

lemma hasContent_iff (o : Option JSStr) :
    hasContent o = true ↔ ∃ s, o = some s ∧ ∃ c ∈ s, isWS c = false := by
  cases o with
  | none => simp [hasContent]
  | some s =>
    simp only [hasContent, Bool.and_eq_true, Bool.not_eq_true', Option.some.injEq]
    constructor
    · rintro ⟨-, h2⟩
      have hne : jsTrim s ≠ [] := by
        intro hn
        rw [List.isEmpty_iff.mpr hn] at h2
        cases h2
      refine ⟨s, rfl, ?_⟩
      by_contra hall
      push_neg at hall
      exact hne ((jsTrim_eq_nil_iff s).mpr (by
        intro c hc
        have := hall c hc
        cases hw : isWS c
        · exact absurd hw this
        · rfl))
    · rintro ⟨s', hs', c, hc, hcw⟩
      subst hs'
      constructor
      · cases s with
        | nil => cases hc
        | cons a as => rfl
      · cases hjt : (jsTrim s).isEmpty
        · rfl
        · have := (jsTrim_eq_nil_iff s).mp (List.isEmpty_iff.mp hjt) c hc
          rw [this] at hcw
          cases hcw

lemma isBlankText_iff (o : Option JSStr) :
    isBlankText o = true ↔ o = none ∨ ∃ s, o = some s ∧ ∀ c ∈ s, isWS c = true := by
  cases o with
  | none => simp [isBlankText]
  | some s =>
    simp only [isBlankText, Bool.or_eq_true, Option.some.injEq, reduceCtorEq,
      false_or]
    constructor
    · intro h
      refine ⟨s, rfl, ?_⟩
      rcases h with h | h
      · intro c hc
        rw [List.isEmpty_iff.mp h] at hc
        cases hc
      · exact (jsTrim_eq_nil_iff s).mp (List.isEmpty_iff.mp h)
    · rintro ⟨s', hs', hall⟩
      subst hs'
      exact Or.inr (List.isEmpty_iff.mpr ((jsTrim_eq_nil_iff _).mpr hall))

/-- Claim C1: the type classifier is total and deterministic, with strict
precedence: a note field that is non-null and contains a non-whitespace
character classifies the row as a note (even with selected text present);
otherwise a null, empty or all-whitespace selected text classifies it as a
bookmark; otherwise it is a highlight. -/
theorem determineAnnotationType_precedence (raw : RawAnnotation) :
    ((∃ s, raw.note = some s ∧ ∃ c ∈ s, isWS c = false) →
      determineAnnotationType raw = .note) ∧
    ((¬ ∃ s, raw.note = some s ∧ ∃ c ∈ s, isWS c = false) →
      (raw.text = none ∨ ∃ s, raw.text = some s ∧ ∀ c ∈ s, isWS c = true) →
      determineAnnotationType raw = .bookmark) ∧
    ((¬ ∃ s, raw.note = some s ∧ ∃ c ∈ s, isWS c = false) →
      (∃ s, raw.text = some s ∧ ∃ c ∈ s, isWS c = false) →
      determineAnnotationType raw = .highlight) := by
  refine ⟨?_, ?_, ?_⟩
  · intro h
    have hn : hasContent raw.note = true := (hasContent_iff _).mpr h
    simp [determineAnnotationType, hn]
  · intro h1 h2
    have hn : hasContent raw.note = false := by
      cases hcc : hasContent raw.note
      · rfl
      · exact absurd ((hasContent_iff _).mp hcc) h1
    have ht : isBlankText raw.text = true := (isBlankText_iff _).mpr h2
    simp [determineAnnotationType, hn, ht]
  · intro h1 h2
    have hn : hasContent raw.note = false := by
      cases hcc : hasContent raw.note
      · rfl
      · exact absurd ((hasContent_iff _).mp hcc) h1
    have ht : isBlankText raw.text = false := by
      cases hbt : isBlankText raw.text
      · rfl
      · rcases (isBlankText_iff _).mp hbt with h | ⟨s, hs, hall⟩
        · rcases h2 with ⟨s, hs, -⟩
          rw [h] at hs
          cases hs
        · rcases h2 with ⟨s', hs', c, hc, hcw⟩
          rw [hs] at hs'
          injection hs' with e
          subst e
          rw [hall c hc] at hcw
          cases hcw
    simp [determineAnnotationType, hn, ht]

def rawNoteEx : RawAnnotation :=
  { id := 1, assetId := "b1".data, text := some "quote".data,
    note := some "hi".data, style := 3, location := none, createdAt := 0,
    modifiedAt := 0, deleted := 0, title := some "T".data,
    author := some "A".data, genre := some "G".data }

def rawBookmarkEx : RawAnnotation := { rawNoteEx with id := 2, note := none, text := some "  ".data }

def rawHighlightEx : RawAnnotation := { rawNoteEx with id := 3, note := none }

theorem determineAnnotationType_precedence_witness :
    determineAnnotationType rawNoteEx = .note ∧
    determineAnnotationType rawBookmarkEx = .bookmark ∧
    determineAnnotationType rawHighlightEx = .highlight :=
  ⟨(determineAnnotationType_precedence rawNoteEx).1
      ⟨"hi".data, rfl, 'h', by decide, by decide⟩,
   (determineAnnotationType_precedence rawBookmarkEx).2.1
      (by rintro ⟨s, hs, -⟩; exact Option.noConfusion hs)
      (Or.inr ⟨"  ".data, rfl, by decide⟩),
   (determineAnnotationType_precedence rawHighlightEx).2.2
      (by rintro ⟨s, hs, -⟩; exact Option.noConfusion hs)
      ⟨"quote".data, rfl, 'q', by decide, by decide⟩⟩

/-- Claim C2: the epoch converter is the pure arithmetic shift by the vendor
epoch 978,307,200 s; `convertAppleDate 0` is exactly 2001-01-01T00:00:00Z;
recovering the seconds from the converted date round-trips for every
integer, so the conversion is injective with no precision loss. -/
theorem convertAppleDate_roundtrip :
    (∀ s : Int, dateToAppleSeconds (convertAppleDate s) = s) ∧
    convertAppleDate 0 = ⟨epochSecondsOfUTC 2001 1 1 0 0 0 * 1000⟩ ∧
    (∀ s t : Int, convertAppleDate s = convertAppleDate t → s = t) ∧
    (∀ s : Int, (convertAppleDate s).ms = (APPLE_EPOCH_OFFSET + s) * 1000) := by
  refine ⟨?_, by decide, ?_, ?_⟩
  · intro s
    simp only [convertAppleDate, dateToAppleSeconds, APPLE_EPOCH_OFFSET]
    omega
  · intro s t h
    have h2 : (s + APPLE_EPOCH_OFFSET) * 1000 = (t + APPLE_EPOCH_OFFSET) * 1000 :=
      congrArg JSDate.ms h
    simp only [APPLE_EPOCH_OFFSET] at h2
    omega
  · intro s
    simp only [convertAppleDate]
    omega

theorem convertAppleDate_roundtrip_witness :
    convertAppleDate 123 = convertAppleDate 123 ∧ (123 : Int) = 123 :=
  ⟨rfl, convertAppleDate_roundtrip.2.2.1 123 123 rfl⟩

/-- Claim C6: the style classifier is total: codes 0–5 map to the fixed
table entries, and every code outside [0,5] yields the default yellow. -/
theorem mapAnnotationStyle_table :
    mapAnnotationStyle 0 = (.highlight, .underline) ∧
    mapAnnotationStyle 1 = (.highlight, .green) ∧
    mapAnnotationStyle 2 = (.highlight, .blue) ∧
    mapAnnotationStyle 3 = (.highlight, .yellow) ∧
    mapAnnotationStyle 4 = (.highlight, .pink) ∧
    mapAnnotationStyle 5 = (.highlight, .purple) ∧
    ∀ c : Int, c < 0 ∨ 5 < c → mapAnnotationStyle c = (.highlight, .yellow) := by
  refine ⟨by decide, by decide, by decide, by decide, by decide, by decide, ?_⟩
  intro c hc
  unfold mapAnnotationStyle
  rw [if_neg (by omega), if_neg (by omega), if_neg (by omega), if_neg (by omega),
    if_neg (by omega), if_neg (by omega)]

theorem mapAnnotationStyle_table_witness :
    ((5 : Int) < 99 ∨ (99 : Int) < 0) ∧ mapAnnotationStyle 99 = (.highlight, .yellow) :=
  ⟨Or.inl (by norm_num), mapAnnotationStyle_table.2.2.2.2.2.2 99 (Or.inr (by norm_num))⟩

lemma keepAnnotation_iff (o : FilterOptions) (ann : Annotation) :
    keepAnnotation o ann = true ↔
      includeFlag o ann.type = true ∧
      (∀ cs, o.colorFilters = some cs → cs ≠ [] → colorStr ann.color ∈ cs) := by
  obtain ⟨ih, ib, inn, cf⟩ := o
  unfold keepAnnotation includeFlag
  cases ht : ann.type <;>
    simp only [ht] <;>
    cases cf with
    | none =>
      cases ih <;> cases ib <;> cases inn <;> simp
    | some cs =>
      rcases eq_or_ne cs [] with hcs | hcs
      · subst hcs
        cases ih <;> cases ib <;> cases inn <;> simp
      · have hlen : 0 < cs.length := List.length_pos.mpr hcs
        cases ih <;> cases ib <;> cases inn <;>
          simp [hlen, hcs, List.elem_iff]

/-- Claim C3: `filterAnnotations` is an order-preserving subset of its
input, keeping exactly the annotations whose kind flag is on and, when a
non-empty color allow-list is supplied, whose color belongs to it; an
absent or empty allow-list imposes no color restriction and a fully
permissive configuration returns the input unchanged. -/
theorem filterAnnotations_subset (anns : List Annotation) (o : FilterOptions) :
    (filterAnnotations anns o).Sublist anns ∧
    (∀ a, a ∈ filterAnnotations anns o ↔
      a ∈ anns ∧ includeFlag o a.type = true ∧
      (∀ cs, o.colorFilters = some cs → cs ≠ [] → colorStr a.color ∈ cs)) ∧
    (o.includeHighlights = true → o.includeBookmarks = true →
      o.includeNotes = true → (o.colorFilters = none ∨ o.colorFilters = some []) →
      filterAnnotations anns o = anns) := by
  refine ⟨List.filter_sublist _, ?_, ?_⟩
  · intro a
    rw [filterAnnotations, List.mem_filter, keepAnnotation_iff]
  · intro h1 h2 h3 h4
    rw [filterAnnotations, List.filter_eq_self]
    intro a ha
    rw [ keepAnnotation_iff]
    constructor
    · cases htp : a.type <;> simp [includeFlag, htp, h1, h2, h3]
    · intro cs hcs hne
      rcases h4 with h | h
      · rw [h] at hcs
        cases hcs
      · rw [h] at hcs
        injection hcs with e
        exact absurd e.symm hne

def filterAnnsEx : List Annotation :=
  [ rawToAnnotation rawNoteEx, rawToAnnotation rawHighlightEx]

def permissiveOpts : FilterOptions :=
  { includeHighlights := true, includeBookmarks := true, includeNotes := true,
    colorFilters := none }

def startedBook (raw : RawAnnotation) : Book :=
  { assetId := raw.assetId
    title := raw.title
    author := raw.author
    genre := raw.genre
    annotations := [ rawToAnnotation raw] }

lemma extendBook_nil (b : Book) : extendBook [] b = b := by
  cases b
  simp [extendBook, transformAnnotations]

lemma extendBooks_nil (bs : List Book) : extendBooks [] bs = bs := by
  have h : ∀ b ∈ bs, extendBook [] b = id b := fun b _ => extendBook_nil b
  rw [extendBooks, List.map_congr_left h, List.map_id]

lemma keysOf_append (l₁ l₂ : List Book) :
    keysOf (l₁ ++ l₂) = keysOf l₁ ++ keysOf l₂ :=
  List.map_append _ _ _

lemma keysOf_pushAnn (raw : RawAnnotation) (bs : List Book) :
    keysOf (pushAnn raw bs) = keysOf bs := by
  induction bs with
  | nil => rfl
  | cons b bs ih =>
    rw [pushAnn]
    split
    · rfl
    · unfold keysOf at ih ⊢
      simp only [List.map_cons, ih]

lemma hasKey_pushAnn (raw : RawAnnotation) (bs : List Book) (k : JSStr) :
    hasKey (pushAnn raw bs) k = hasKey bs k := by
  induction bs with
  | nil => rfl
  | cons b bs ih =>
    rw [pushAnn]
    split
    · rfl
    · unfold hasKey at ih ⊢
      simp only [List.any_cons, ih]

lemma hasKey_append (l₁ l₂ : List Book) (k : JSStr) :
    hasKey (l₁ ++ l₂) k = (hasKey l₁ k || hasKey l₂ k) :=
  List.any_append

lemma hasKey_false_iff (bs : List Book) (k : JSStr) :
    hasKey bs k = false ↔ ∀ b ∈ bs, b.assetId ≠ k := by
  unfold hasKey
  rw [List.any_eq_false]
  constructor
  · intro h b hb
    exact beq_eq_false_iff_ne.mp (Bool.not_eq_true _ ▸ h b hb)
  · intro h b hb
    simp [beq_eq_false_iff_ne.mpr (h b hb)]

lemma pushAnn_append (raw : RawAnnotation) (l₁ l₂ : List Book)
    (h : hasKey l₁ raw.assetId = false) :
    pushAnn raw (l₁ ++ l₂) = l₁ ++ pushAnn raw l₂ := by
  induction l₁ with
  | nil => rfl
  | cons b bs ih =>
    have hb : (b.assetId == raw.assetId) = false :=
      beq_eq_false_iff_ne.mpr
        ((hasKey_false_iff _ _).mp h b (List.mem_cons_self _ _))
    have hbs : hasKey bs raw.assetId = false := by
      rw [hasKey_false_iff] at h ⊢
      exact fun x hx => h x (List.mem_cons_of_mem _ hx)
    rw [List.cons_append, pushAnn, if_neg (by simp [hb]), ih hbs, List.cons_append]

lemma pushAnn_startedBook (raw : RawAnnotation) :
    pushAnn raw [newBook raw] = [startedBook raw] := by
  rw [pushAnn, if_pos (by simp [newBook])]
  rfl

lemma extendBook_cons_of_ne (r : RawAnnotation) (rs : List RawAnnotation) (b : Book)
    (h : (r.assetId == b.assetId) = false) :
    extendBook (r :: rs) b = extendBook rs b := by
  unfold extendBook
  rw [List.filter_cons_of_neg (by simp [h])]

lemma extendBooks_pushAnn (r : RawAnnotation) (rs : List RawAnnotation)
    (acc : List Book) (hnd : (keysOf acc).Nodup) :
    extendBooks rs (pushAnn r acc) = extendBooks (r :: rs) acc := by
  induction acc with
  | nil => rfl
  | cons b bs ih =>
    have hnd' : (keysOf bs).Nodup := (List.nodup_cons.mp hnd).2
    have hbmem : b.assetId ∉ keysOf bs := (List.nodup_cons.mp hnd).1
    cases hb : (b.assetId == r.assetId) with
    | false =>
      have hrb : (r.assetId == b.assetId) = false :=
        beq_eq_false_iff_ne.mpr (fun e => beq_eq_false_iff_ne.mp hb e.symm)
      rw [pushAnn, if_neg (by simp [hb])]
      unfold extendBooks
      rw [List.map_cons, List.map_cons]
      rw [extendBook_cons_of_ne r rs b hrb]
      exact congrArg _ (ih hnd')
    | true =>
      have hbr : b.assetId = r.assetId := eq_of_beq hb
      have hrb : (r.assetId == b.assetId) = true := by
        rw [beq_iff_eq]
        exact hbr.symm
      rw [pushAnn, if_pos (by simp [hb])]
      unfold extendBooks
      rw [List.map_cons, List.map_cons]
      have hhead :
          extendBook rs { b with annotations := b.annotations ++ [ rawToAnnotation r] } =
            extendBook (r :: rs) b := by
        unfold extendBook
        rw [List.filter_cons_of_pos (by simp [hrb])]
        simp [transformAnnotations]
      rw [hhead]
      have htail : ∀ b' ∈ bs, extendBook rs b' = extendBook (r :: rs) b' := by
        intro b' hb'
        have hne : b'.assetId ≠ r.assetId := by
          intro e
          exact hbmem (by
            rw [← hbr] at e
            rw [keysOf, List.mem_map]
            exact ⟨b', hb', e⟩)
        exact (extendBook_cons_of_ne r rs b'
          (beq_eq_false_iff_ne.mpr (fun e2 => hne e2.symm))).symm
      exact congrArg _ (List.map_congr_left htail)

lemma groupSpec_nil : groupSpec [] = [] := by
  rw [groupSpec]

lemma groupSpec_cons (r : RawAnnotation) (rs : List RawAnnotation) :
    groupSpec (r :: rs) =
      { assetId := r.assetId
        title := r.title
        author := r.author
        genre := r.genre
        annotations :=
          transformAnnotations (r :: rs.filter (fun x => x.assetId == r.assetId)) }
      :: groupSpec (rs.filter (fun x => !(x.assetId == r.assetId))) := by
  rw [groupSpec]

lemma firstSeen_nil : firstSeen [] = [] := by
  rw [firstSeen]

lemma firstSeen_cons (k : JSStr) (ks : List JSStr) :
    firstSeen (k :: ks) = k :: firstSeen (ks.filter (fun x => !(x == k))) := by
  rw [firstSeen]

lemma hasKey_singleton (b : Book) (k : JSStr) :
    hasKey [b] k = (b.assetId == k) := by
  simp [hasKey]

lemma foldl_groupStep (rows : List RawAnnotation) :
    ∀ acc : List Book, (keysOf acc).Nodup →
      rows.foldl groupStep acc =
        extendBooks rows acc ++
          groupSpec (rows.filter (fun x => !(hasKey acc x.assetId))) := by
  induction rows with
  | nil =>
    intro acc h
    simp only [List.foldl_nil, List.filter_nil, extendBooks_nil, groupSpec_nil,
      List.append_nil]
  | cons r rs ih =>
    intro acc hnd
    rw [List.foldl_cons]
    cases hk : hasKey acc r.assetId with
    | true =>
      have hstep : groupStep acc r = pushAnn r acc := by
        rw [groupStep, if_pos (by simp [hk])]
      rw [hstep, ih (pushAnn r acc) (by rw [keysOf_pushAnn]; exact hnd)]
      have hfil : rs.filter (fun x => !(hasKey (pushAnn r acc) x.assetId)) =
          rs.filter (fun x => !(hasKey acc x.assetId)) :=
        List.filter_congr (fun x _ => by rw [hasKey_pushAnn])
      have hfil2 : (r :: rs).filter (fun x => !(hasKey acc x.assetId)) =
          rs.filter (fun x => !(hasKey acc x.assetId)) :=
        List.filter_cons_of_neg (by simp [hk])
      rw [hfil, hfil2, extendBooks_pushAnn r rs acc hnd]
    | false =>
      have hstep : groupStep acc r = acc ++ [startedBook r] := by
        rw [groupStep, if_neg (by simp [hk]), pushAnn_append r acc _ hk,
          pushAnn_startedBook]
      have hnotin : ∀ b ∈ acc, b.assetId ≠ r.assetId := (hasKey_false_iff _ _).mp hk
      have hnd2 : (keysOf (acc ++ [startedBook r])).Nodup := by
        rw [keysOf_append, List.nodup_append]
        refine ⟨hnd, List.nodup_singleton _, ?_⟩
        intro a ha hmem
        have ha' : ∃ b ∈ acc, b.assetId = a := List.mem_map.mp ha
        have hmem' : a = r.assetId := by
          have : a ∈ [(startedBook r).assetId] := hmem
          simpa [startedBook] using this
        rcases ha' with ⟨b, hb, hba⟩
        exact hnotin b hb (hba.trans hmem')
      rw [hstep, ih _ hnd2]
      have hext : extendBooks rs acc = extendBooks (r :: rs) acc := by
        unfold extendBooks
        refine List.map_congr_left (fun b hb => ?_)
        exact (extendBook_cons_of_ne r rs b
          (beq_eq_false_iff_ne.mpr (fun e => hnotin b hb e.symm))).symm
      have hfil3 : (r :: rs).filter (fun x => !(hasKey acc x.assetId)) =
          r :: rs.filter (fun x => !(hasKey acc x.assetId)) :=
        List.filter_cons_of_pos (by simp [hk])
      have hfA : (rs.filter (fun x => !(hasKey acc x.assetId))).filter
            (fun x => x.assetId == r.assetId) =
          rs.filter (fun x => x.assetId == r.assetId) := by
        rw [List.filter_filter]
        refine List.filter_congr (fun x _ => ?_)
        cases hx : (x.assetId == r.assetId)
        · simp
        · have hxe : x.assetId = r.assetId := eq_of_beq hx
          simp [hxe, hk]
      have hfB : (rs.filter (fun x => !(hasKey acc x.assetId))).filter
            (fun x => !(x.assetId == r.assetId)) =
          rs.filter (fun x => !(hasKey (acc ++ [startedBook r]) x.assetId)) := by
        rw [List.filter_filter]
        refine List.filter_congr (fun x _ => ?_)
        rw [hasKey_append, hasKey_singleton]
        have hsb : (startedBook r).assetId = r.assetId := rfl
        rw [hsb, Bool.not_or, Bool.and_comm]
        cases hx : (x.assetId == r.assetId)
        · have : (r.assetId == x.assetId) = false := by
            rw [beq_eq_false_iff_ne] at hx ⊢
            exact fun e => hx e.symm
          rw [this]
        · have : (r.assetId == x.assetId) = true := by
            rw [beq_iff_eq] at hx ⊢
            exact hx.symm
          rw [this]
      have hhead : extendBook rs (startedBook r) =
          { assetId := r.assetId
            title := r.title
            author := r.author
            genre := r.genre
            annotations :=
              transformAnnotations
                (r :: rs.filter (fun x => x.assetId == r.assetId)) } := by
        unfold extendBook startedBook
        simp [transformAnnotations]
      rw [hfil3, groupSpec_cons, hfA, hfB, ← hext]
      unfold extendBooks
      rw [List.map_append]
      simp only [List.map_cons, List.map_nil, hhead, List.append_assoc,
        List.singleton_append]

lemma groupByBook_eq_groupSpec (rows : List RawAnnotation) :
    groupByBook rows = groupSpec rows := by
  have h := foldl_groupStep rows [] (by simp [keysOf])
  simp only [extendBooks, List.map_nil, List.nil_append] at h
  rw [groupByBook, h]
  congr 1
  have : ∀ x ∈ rows, (!(hasKey ([] : List Book) x.assetId)) = true := by
    intro x hx
    rfl
  rw [List.filter_eq_self.mpr this]

lemma firstSeen_subset (l : List JSStr) : ∀ x ∈ firstSeen l, x ∈ l := by
  induction l using firstSeen.induct with
  | case1 =>
    intro x hx
    rw [firstSeen_nil] at hx
    exact absurd hx (List.not_mem_nil _)
  | case2 k ks ih =>
    intro x hx
    rw [firstSeen_cons] at hx
    rcases List.mem_cons.mp hx with h | h
    · exact h ▸ List.mem_cons_self _ _
    · exact List.mem_cons_of_mem _ (List.mem_of_mem_filter (ih x h))

lemma firstSeen_nodup (l : List JSStr) : (firstSeen l).Nodup := by
  induction l using firstSeen.induct with
  | case1 =>
    rw [firstSeen_nil]
    exact List.nodup_nil
  | case2 k ks ih =>
    rw [firstSeen_cons, List.nodup_cons]
    refine ⟨?_, ih⟩
    intro hk
    have h1 := firstSeen_subset _ k hk
    have h2 := (List.mem_filter.mp h1).2
    simp at h2

lemma groupSpec_keys (rows : List RawAnnotation) :
    (groupSpec rows).map (fun b => b.assetId) =
      firstSeen (rows.map (fun r => r.assetId)) := by
  induction rows using groupSpec.induct with
  | case1 =>
    rw [groupSpec_nil, List.map_nil, List.map_nil, firstSeen_nil]
  | case2 r rs ih =>
    have hmf : (rs.filter (fun x => !(x.assetId == r.assetId))).map
          (fun r => r.assetId) =
        (rs.map (fun r => r.assetId)).filter (fun a => !(a == r.assetId)) := by
      rw [List.filter_map]
      rfl
    rw [groupSpec_cons, List.map_cons, List.map_cons, firstSeen_cons, ih, hmf]

lemma find?_filter_sub {α : Type} (p q : α → Bool) (l : List α)
    (h : ∀ x, p x = true → q x = true) :
    (l.filter q).find? p = l.find? p := by
  induction l with
  | nil => rfl
  | cons a l ih =>
    cases hq : q a
    · have hp : p a = false := by
        cases hp : p a
        · rfl
        · rw [h a hp] at hq
          cases hq
      rw [List.filter_cons_of_neg (by simp [hq]), ih,
        List.find?_cons_of_neg _ (by simp [hp])]
    · rw [List.filter_cons_of_pos (by simp [hq])]
      cases hp : p a
      · rw [List.find?_cons_of_neg _ (by simp [hp]),
          List.find?_cons_of_neg _ (by simp [hp])]
        exact ih
      · rw [List.find?_cons_of_pos _ (by simp [hp]),
          List.find?_cons_of_pos _ (by simp [hp])]

lemma groupSpec_books (rows : List RawAnnotation) :
    ∀ b ∈ groupSpec rows, ∃ r,
      rows.find? (fun x => x.assetId == b.assetId) = some r ∧
      b.title = r.title ∧ b.author = r.author ∧ b.genre = r.genre ∧
      b.annotations =
        transformAnnotations (rows.filter (fun x => x.assetId == b.assetId)) := by
  induction rows using groupSpec.induct with
  | case1 =>
    intro b hb
    rw [groupSpec_nil] at hb
    exact absurd hb (List.not_mem_nil _)
  | case2 r rs ih =>
    intro b hb
    rw [groupSpec_cons] at hb
    rcases List.mem_cons.mp hb with hb | hb
    · subst hb
      refine ⟨r, ?_, rfl, rfl, rfl, ?_⟩
      · exact List.find?_cons_of_pos _ (by simp)
      · rw [List.filter_cons_of_pos (by simp)]
    · rcases ih b hb with ⟨r', hfind, ht, ha, hg, hann⟩
      have hbkey : ∃ x ∈ rs.filter (fun x => !(x.assetId == r.assetId)),
          x.assetId = b.assetId := by
        have h1 : b.assetId ∈
            (groupSpec (rs.filter (fun x => !(x.assetId == r.assetId)))).map
              (fun b => b.assetId) := List.mem_map_of_mem _ hb
        rw [groupSpec_keys] at h1
        exact List.mem_map.mp (firstSeen_subset _ _ h1)
      rcases hbkey with ⟨x, hxmem, hxeq⟩
      have hxne : (x.assetId == r.assetId) = false := by
        have h2 := (List.mem_filter.mp hxmem).2
        cases hx : (x.assetId == r.assetId)
        · rfl
        · rw [hx] at h2
          cases h2
      have hbne : (b.assetId == r.assetId) = false := hxeq ▸ hxne
      have hrbne : (r.assetId == b.assetId) = false := by
        rw [Bool.beq_comm]
        exact hbne
      refine ⟨r', ?_, ht, ha, hg, ?_⟩
      · rw [List.find?_cons_of_neg _ (by simp [hrbne]), ← hfind]
        refine (find?_filter_sub _ _ rs (fun y hy => ?_)).symm
        have : y.assetId = b.assetId := eq_of_beq hy
        rw [this, hbne]
        rfl
      · rw [List.filter_cons_of_neg (by simp [hrbne]), hann, List.filter_filter]
        refine congrArg _ (List.filter_congr (fun x _ => ?_))
        cases hx : (x.assetId == b.assetId)
        · rfl
        · have : x.assetId = b.assetId := eq_of_beq hx
          rw [this, hbne]
          rfl

lemma groupSpec_flat_perm (rows : List RawAnnotation) :
    ((groupSpec rows).flatMap (fun b => b.annotations)).Perm
      (transformAnnotations rows) := by
  induction rows using groupSpec.induct with
  | case1 =>
    rw [groupSpec_nil]
    exact List.Perm.refl _
  | case2 r rs ih =>
    rw [groupSpec_cons, List.flatMap_cons]
    have h1 := List.Perm.append_left
      (transformAnnotations (r :: rs.filter (fun x => x.assetId == r.assetId))) ih
    refine h1.trans ?_
    simp only [transformAnnotations, List.map_cons, List.cons_append]
    refine List.Perm.cons _ ?_
    rw [← List.map_append]
    exact List.Perm.map _ (List.filter_append_perm _ rs)

/-- Claim C4: `groupByBook` yields one book per distinct asset id, in
first-seen order; each book's title/author/genre come from the first row
with its asset id; its annotations are the normalization of all rows
bearing that asset id, in row order. -/
theorem groupByBook_characterization (rows : List RawAnnotation) :
    (groupByBook rows).map (fun b => b.assetId) =
      firstSeen (rows.map (fun r => r.assetId)) ∧
    ((groupByBook rows).map (fun b => b.assetId)).Nodup ∧
    ∀ b ∈ groupByBook rows, ∃ r,
      rows.find? (fun x => x.assetId == b.assetId) = some r ∧
      b.title = r.title ∧ b.author = r.author ∧ b.genre = r.genre ∧
      b.annotations =
        transformAnnotations (rows.filter (fun x => x.assetId == b.assetId)) := by
  refine ⟨?_, ?_, ?_⟩
  · rw [groupByBook_eq_groupSpec]
    exact groupSpec_keys rows
  · rw [groupByBook_eq_groupSpec, groupSpec_keys]
    exact firstSeen_nodup _
  · intro b hb
    rw [groupByBook_eq_groupSpec] at hb
    exact groupSpec_books rows b hb

def rowsPairEx : List RawAnnotation := [rawHighlightEx, rawNoteEx]

def bookPairEx : Book :=
  { assetId := "b1".data
    title := some "T".data
    author := some "A".data
    genre := some "G".data
    annotations := [ rawToAnnotation rawHighlightEx, rawToAnnotation rawNoteEx] }

theorem groupByBook_characterization_witness :
    bookPairEx ∈ groupByBook rowsPairEx ∧
    ∃ r, rowsPairEx.find? (fun x => x.assetId == bookPairEx.assetId) = some r ∧
      bookPairEx.title = r.title ∧ bookPairEx.author = r.author ∧
      bookPairEx.genre = r.genre ∧
      bookPairEx.annotations =
        transformAnnotations
          (rowsPairEx.filter (fun x => x.assetId == bookPairEx.assetId)) :=
  ⟨by decide, (groupByBook_characterization rowsPairEx).2.2 bookPairEx (by decide)⟩

/-- Claim C10: `groupByBook` and `transformAnnotations` agree: every book
carries exactly the annotations `transformAnnotations` produces from the
rows with its asset id, in the same order, and the concatenation over all
books is a permutation of `transformAnnotations` of the whole row list. -/
theorem groupByBook_transform_agree (rows : List RawAnnotation) :
    (∀ b ∈ groupByBook rows,
      b.annotations =
        transformAnnotations (rows.filter (fun x => x.assetId == b.assetId))) ∧
    ((groupByBook rows).flatMap (fun b => b.annotations)).Perm
      (transformAnnotations rows) := by
  constructor
  · intro b hb
    rw [groupByBook_eq_groupSpec] at hb
    rcases groupSpec_books rows b hb with ⟨r, -, -, -, -, hann⟩
    exact hann
  · rw [groupByBook_eq_groupSpec]
    exact groupSpec_flat_perm rows

theorem groupByBook_transform_agree_witness :
    bookPairEx ∈ groupByBook rowsPairEx ∧
    bookPairEx.annotations =
      transformAnnotations
        (rowsPairEx.filter (fun x => x.assetId == bookPairEx.assetId)) :=
  ⟨by decide, (groupByBook_transform_agree rowsPairEx).1 bookPairEx (by decide)⟩

/-- Claim C5: rows with the soft-delete flag set never survive the query
(`WHERE ZANNOTATIONDELETED = 0`), and every annotation in the grouped
output materializes from a surviving (non-deleted) query row. -/
theorem softDelete_excluded (anns : List AnnotationRow) (lib : List LibraryRow) :
    (∀ r ∈ queryAnnotations anns lib, r.deleted = 0) ∧
    (∀ b ∈ groupByBook (queryAnnotations anns lib), ∀ a ∈ b.annotations,
      ∃ r ∈ queryAnnotations anns lib, r.deleted = 0 ∧ a = rawToAnnotation r) := by
  have hmem : ∀ r ∈ queryAnnotations anns lib, r.deleted = 0 := by
    intro r hr
    unfold queryAnnotations at hr
    have hperm := List.perm_insertionSort rowLeProp
      ((leftJoin anns lib).filter (fun r => r.deleted == 0))
    have hr2 : r ∈ (leftJoin anns lib).filter (fun r => r.deleted == 0) :=
      hperm.subset hr
    exact eq_of_beq (List.mem_filter.mp hr2).2
  refine ⟨hmem, ?_⟩
  intro b hb a ha
  rw [groupByBook_eq_groupSpec] at hb
  rcases groupSpec_books _ b hb with ⟨r', -, -, -, -, hann⟩
  rw [hann] at ha
  unfold transformAnnotations at ha
  rcases List.mem_map.mp ha with ⟨r, hrmem, hra⟩
  have hrq : r ∈ queryAnnotations anns lib := List.mem_of_mem_filter hrmem
  exact ⟨r, hrq, hmem r hrq, hra.symm⟩

def annRowKeep : AnnotationRow :=
  { id := 1, assetId := "b1".data, text := some "q".data, note := none,
    style := 1, location := none, createdAt := 5, modifiedAt := 5, deleted := 0 }

def annRowDel : AnnotationRow := { annRowKeep with id := 2, deleted := 1 }

def libRowEx : LibraryRow :=
  { assetId := "b1".data, title := some "T".data, author := none, genre := none }

def rawKeepJoined : RawAnnotation := joinRow annRowKeep (some libRowEx)

def bookKeepEx : Book :=
  { assetId := "b1".data, title := some "T".data, author := none, genre := none,
    annotations := [ rawToAnnotation rawKeepJoined] }

theorem softDelete_excluded_witness :
    bookKeepEx ∈ groupByBook (queryAnnotations [annRowDel, annRowKeep] [libRowEx]) ∧
    ∃ r ∈ queryAnnotations [annRowDel, annRowKeep] [libRowEx],
      r.deleted = 0 ∧ rawToAnnotation rawKeepJoined = rawToAnnotation r :=
  ⟨by decide,
   (softDelete_excluded [annRowDel, annRowKeep] [libRowEx]).2 bookKeepEx
     (by decide) ( rawToAnnotation rawKeepJoined) (by decide)⟩

lemma findDatabases_some (fs : FileSystem) (cp : CustomPaths) :
    findDatabases fs (some cp) =
      if truthy cp.annotations && truthy cp.library then
        .ok (cp.annotations.getD [], cp.library.getD [])
      else findDatabases fs none := by
  unfold findDatabases
  rfl

lemma findDatabases_none (fs : FileSystem) :
    findDatabases fs none =
      if !existsSync fs (annotationsDirOf fs) then
        .error ("Annotations directory not found: ".data ++ annotationsDirOf fs)
      else
        match annotationFilesOf fs with
        | [] => .error ("No annotation database found in ".data ++ annotationsDirOf fs)
        | f :: _ =>
          if !existsSync fs (libraryDirOf fs) then
            .error ("Library directory not found: ".data ++ libraryDirOf fs)
          else
            match libraryFilesOf fs with
            | [] => .error ("No library database found in ".data ++ libraryDirOf fs)
            | g :: _ =>
              .ok (pathJoin (annotationsDirOf fs) f, pathJoin (libraryDirOf fs) g) := by
  rfl

/-- Claim C7: without explicit overrides, `findDatabases` fails exactly when
a store directory is missing or holds no file matching the naming
convention, and each failure is an error naming the offending path. -/
theorem findDatabases_scan_failure (fs : FileSystem) :
    ((∃ msg, findDatabases fs none = Except.error msg) ↔
      (existsSync fs (annotationsDirOf fs) = false ∨ annotationFilesOf fs = [] ∨
       existsSync fs (libraryDirOf fs) = false ∨ libraryFilesOf fs = [])) ∧
    (existsSync fs (annotationsDirOf fs) = false →
      findDatabases fs none =
        Except.error ("Annotations directory not found: ".data ++ annotationsDirOf fs)) ∧
    (existsSync fs (annotationsDirOf fs) = true →
      annotationFilesOf fs = [] →
      findDatabases fs none =
        Except.error ("No annotation database found in ".data ++ annotationsDirOf fs)) ∧
    (existsSync fs (annotationsDirOf fs) = true →
      annotationFilesOf fs ≠ [] →
      existsSync fs (libraryDirOf fs) = false →
      findDatabases fs none =
        Except.error ("Library directory not found: ".data ++ libraryDirOf fs)) ∧
    (existsSync fs (annotationsDirOf fs) = true →
      annotationFilesOf fs ≠ [] →
      existsSync fs (libraryDirOf fs) = true →
      libraryFilesOf fs = [] →
      findDatabases fs none =
        Except.error ("No library database found in ".data ++ libraryDirOf fs)) := by
  refine ⟨?_, ?_, ?_, ?_, ?_⟩
  · rw [findDatabases_none]
    cases h1 : existsSync fs (annotationsDirOf fs) <;>
      cases h2 : annotationFilesOf fs <;>
      cases h3 : existsSync fs (libraryDirOf fs) <;>
      cases h4 : libraryFilesOf fs <;>
      simp
  · intro h1
    rw [findDatabases_none, h1]
    rfl
  · intro h1 h2
    rw [findDatabases_none, h1, h2]
    rfl
  · intro h1 h2 h3
    rw [findDatabases_none, h1, h3]
    cases h2' : annotationFilesOf fs with
    | nil => exact absurd h2' h2
    | cons f rest => rfl
  · intro h1 h2 h3 h4
    rw [findDatabases_none, h1, h3, h4]
    cases h2' : annotationFilesOf fs with
    | nil => exact absurd h2' h2
    | cons f rest => rfl

def fsMissingEx : FileSystem := { home := "/Users/u".data, dirs := [] }

theorem findDatabases_scan_failure_witness :
    existsSync fsMissingEx (annotationsDirOf fsMissingEx) = false ∧
    findDatabases fsMissingEx none =
      Except.error
        ("Annotations directory not found: ".data ++ annotationsDirOf fsMissingEx) :=
  ⟨rfl, (findDatabases_scan_failure fsMissingEx).2.1 rfl⟩

/-- Claim C8: with both explicit store paths supplied, `findDatabases`
returns them unchanged independently of the filesystem; when scanning, it
picks the first matching file of each directory listing. -/
theorem findDatabases_overrides_first_match :
    (∀ (fs : FileSystem) (a l : JSStr), a ≠ [] → l ≠ [] →
      findDatabases fs (some { annotations := some a, library := some l }) =
        Except.ok (a, l)) ∧
    (∀ (fs : FileSystem) (f : JSStr) (rest : List JSStr) (g : JSStr)
        (rest' : List JSStr),
      existsSync fs (annotationsDirOf fs) = true →
      annotationFilesOf fs = f :: rest →
      existsSync fs (libraryDirOf fs) = true →
      libraryFilesOf fs = g :: rest' →
      findDatabases fs none =
        Except.ok (pathJoin (annotationsDirOf fs) f, pathJoin (libraryDirOf fs) g)) := by
  constructor
  · intro fs a l ha hl
    have ha' : truthy (some a) = true := by
      simp [truthy, ha]
    have hl' : truthy (some l) = true := by
      simp [truthy, hl]
    rw [findDatabases_some, if_pos (by simp [ha', hl'])]
    rfl
  · intro fs f rest g rest' h1 h2 h3 h4
    rw [findDatabases_none, h1, h2, h3, h4]
    rfl

def homeEx : JSStr := "/Users/u".data

def fsTwoEx : FileSystem :=
  { home := homeEx
    dirs :=
      [(annotationsDirOf { home := homeEx, dirs := [] },
        ["AEAnnotation_a.sqlite".data, "AEAnnotation_b.sqlite".data]),
       (libraryDirOf { home := homeEx, dirs := [] },
        ["BKLibrary-1.sqlite".data, "BKLibrary-2.sqlite".data])] }

theorem findDatabases_overrides_first_match_witness :
    findDatabases fsTwoEx
        (some { annotations := some "/a.sqlite".data, library := some "/l.sqlite".data }) =
      Except.ok ("/a.sqlite".data, "/l.sqlite".data) ∧
    findDatabases fsTwoEx none =
      Except.ok (pathJoin (annotationsDirOf fsTwoEx) "AEAnnotation_a.sqlite".data,
        pathJoin (libraryDirOf fsTwoEx) "BKLibrary-1.sqlite".data) :=
  ⟨findDatabases_overrides_first_match.1 fsTwoEx _ _ (by decide) (by decide),
   findDatabases_overrides_first_match.2 fsTwoEx
     "AEAnnotation_a.sqlite".data ["AEAnnotation_b.sqlite".data]
     "BKLibrary-1.sqlite".data ["BKLibrary-2.sqlite".data]
     (by decide) (by decide) (by decide) (by decide)⟩

/-- Claim C9: if the explicit overrides are not both supplied (in
particular when exactly one is), `findDatabases` ignores the supplied one
entirely and resolves both paths by scanning, as if no override was
given. -/
theorem findDatabases_partial_override_ignored (fs : FileSystem)
    (cp : CustomPaths)
    (h : truthy cp.annotations = false ∨ truthy cp.library = false) :
    findDatabases fs (some cp) = findDatabases fs none := by
  have hcond : (truthy cp.annotations && truthy cp.library) = false := by
    rcases h with h | h <;> simp [h]
  rw [findDatabases_some, if_neg (by simp [hcond])]

theorem findDatabases_partial_override_ignored_witness :
    (truthy (some "/a.sqlite".data) = false ∨ truthy (none : Option JSStr) = false) ∧
    findDatabases fsMissingEx
        (some { annotations := some "/a.sqlite".data, library := none }) =
      findDatabases fsMissingEx none :=
  ⟨Or.inr rfl,
   findDatabases_partial_override_ignored fsMissingEx
     { annotations := some "/a.sqlite".data, library := none } (Or.inr rfl)⟩

theorem filterAnnotations_subset_witness :
    filterAnnotations filterAnnsEx permissiveOpts = filterAnnsEx ∧
    rawToAnnotation rawNoteEx ∈ filterAnnotations filterAnnsEx permissiveOpts :=
  ⟨(filterAnnotations_subset filterAnnsEx permissiveOpts).2.2 rfl rfl rfl (Or.inl rfl),
   ((filterAnnotations_subset filterAnnsEx permissiveOpts).2.1 _).mpr
     ⟨by decide, by decide, by rintro cs hcs; exact Option.noConfusion hcs⟩⟩
